import Mathlib

set_option maxHeartbeats 1000000
set_option maxRecDepth 8192

/-!
Verification of the LogSentinel Next.js SDK telemetry pipeline.

Shallow embedding of the repository's core modules:
  - src/utils.ts    : sanitizeBody / redactSensitiveFields (body redaction and truncation)
  - src/queue.ts    : LogQueue (bounded FIFO buffer)
  - src/client.ts   : LogSentinelClient.sendBatch / flush retry and batching logic,
                      getClient / resetClient singleton management

JavaScript values reaching sanitizeBody are modelled by the inductive JsValue
(undefined, null, booleans, integer numbers, strings, arrays, objects).
Machine floats are not representable in the model, so the JSON number fragment
is restricted to integers; string lengths are counted in Unicode code points
(JavaScript counts UTF-16 units; the two agree on all inputs used here).
-/

/-- A JavaScript value as handled by sanitizeBody: undefined, null, a boolean,
an (integer) number, a string, an array or a plain object.  An object is a
finite list of key/value entries in insertion order. -/
inductive JsValue where
  | undef : JsValue
  | null : JsValue
  | bool : Bool → JsValue
  | num : Int → JsValue
  | str : String → JsValue
  | arr : List JsValue → JsValue
  | obj : List (String × JsValue) → JsValue
deriving Inhabited

/-- JavaScript truthiness test used by the guard `if (!body) return undefined`:
undefined, null, false, 0 and the empty string are falsy. -/
def isFalsy : JsValue → Bool
  | .undef => true
  | .null => true
  | .bool b => !b
  | .num n => n == 0
  | .str s => s.isEmpty
  | .arr _ => false
  | .obj _ => false

/-- The test `typeof v === 'object' && v !== null` from the source: true exactly
for arrays and objects. -/
def isObjLike : JsValue → Bool
  | .arr _ => true
  | .obj _ => true
  | _ => false

/-- The fixed sensitive-field list of redactSensitiveFields (src/utils.ts). -/
def sensitiveFields : List String :=
  ["password", "token", "apiKey", "api_key", "secret", "auth",
   "authorization", "creditCard", "credit_card", "ssn", "privateKey", "private_key"]

/-- Prefix test on character lists (needle, then haystack). -/
def charsPrefix : List Char → List Char → Bool
  | [], _ => true
  | _ :: _, [] => false
  | c :: cs, h :: hs => c == h && charsPrefix cs hs

/-- Case-sensitive substring containment on character lists, the model of
JavaScript String.prototype.includes (haystack, then needle). -/
def charsContains (hay needle : List Char) : Bool :=
  charsPrefix needle hay ||
    match hay with
    | [] => false
    | _ :: rest => charsContains rest needle

/-- The key test of redactSensitiveFields:
`sensitiveFields.some(field => key.toLowerCase().includes(field))`.
String.prototype.includes is case-sensitive substring containment;
toLowerCase is modelled by Char.toLower (the keys of interest are ASCII). -/
def isSensitiveKey (key : String) : Bool :=
  sensitiveFields.any (fun field => charsContains (key.data.map Char.toLower) field.data)

mutual

/-- redactSensitiveFields (src/utils.ts lines 88-127): scalars pass through,
arrays are redacted element-wise, and in an object every entry whose key is
sensitive has its value replaced by "[REDACTED]"; other entries recurse when
the value is object-like and are kept as-is otherwise. -/
def redactSensitiveFields : JsValue → JsValue
  | .arr elems => .arr (redactElems elems)
  | .obj fields => .obj (redactFields fields)
  | v => v
termination_by structural v => v

/-- Element-wise redaction of an array (`obj.map(item => redactSensitiveFields(item))`). -/
def redactElems : List JsValue → List JsValue
  | [] => []
  | v :: rest => redactSensitiveFields v :: redactElems rest
termination_by structural l => l

/-- Entry-wise redaction of an object's entries (the for-of loop of the source). -/
def redactFields : List (String × JsValue) → List (String × JsValue)
  | [] => []
  | (k, v) :: rest =>
    (if isSensitiveKey k then (k, .str "[REDACTED]")
     else if isObjLike v then (k, redactSensitiveFields v)
     else (k, v)) :: redactFields rest
termination_by structural l => l

end

/-- JSON string escaping as performed by JSON.stringify: quote and backslash
are escaped, the common control characters get their short escapes, other
control characters become a \u00XX escape, and everything else is kept. -/
def escapeChar (c : Char) : List Char :=
  if c = '"' then ['\\', '"']
  else if c = '\\' then ['\\', '\\']
  else if c = '\n' then ['\\', 'n']
  else if c = '\r' then ['\\', 'r']
  else if c = '\t' then ['\\', 't']
  else if c = '\x08' then ['\\', 'b']
  else if c = '\x0c' then ['\\', 'f']
  else if c.val < 0x20 then
    ['\\', 'u', '0', '0', (Nat.digitChar (c.val.toNat / 16)), (Nat.digitChar (c.val.toNat % 16))]
  else [c]

/-- A JSON-quoted string: surrounding quotes plus escaping. -/
def quoteString (s : String) : String :=
  String.mk ('"' :: (s.data.flatMap escapeChar) ++ ['"'])

mutual

/-- JSON.stringify on the modelled values.  Object entries with an undefined
value are skipped, an undefined array element serializes as null, and numbers
are the integer fragment of JavaScript numbers.  A top-level undefined (for
which JSON.stringify returns no string at all) is unreachable at the use site
in sanitizeBody, which returns early on falsy input; it is mapped to
"undefined" to keep the function total. -/
def stringify : JsValue → String
  | .undef => "undefined"
  | .null => "null"
  | .bool true => "true"
  | .bool false => "false"
  | .num n => toString n
  | .str s => quoteString s
  | .arr elems => "[" ++ String.intercalate "," (stringifyElems elems) ++ "]"
  | .obj fields => "\x7b" ++ String.intercalate "," (stringifyFields fields) ++ "\x7d"
termination_by structural v => v

/-- The serialized forms of the elements of an array (undefined becomes null). -/
def stringifyElems : List JsValue → List String
  | [] => []
  | .undef :: rest => "null" :: stringifyElems rest
  | v :: rest => stringify v :: stringifyElems rest
termination_by structural l => l

/-- The serialized entry texts of an object (undefined-valued keys are skipped). -/
def stringifyFields : List (String × JsValue) → List String
  | [] => []
  | (_, .undef) :: rest => stringifyFields rest
  | (k, v) :: rest => (quoteString k ++ ":" ++ stringify v) :: stringifyFields rest
termination_by structural l => l

end

/-- JSON whitespace skipping (space, tab, line feed, carriage return). -/
def skipWs : List Char → List Char
  | c :: rest =>
    if c = ' ' ∨ c = '\t' ∨ c = '\n' ∨ c = '\r' then skipWs rest else c :: rest
  | [] => []

/-- Value of a hexadecimal digit, if any. -/
def hexDigitVal (c : Char) : Option Nat :=
  if '0' ≤ c ∧ c ≤ '9' then some (c.toNat - '0'.toNat)
  else if 'a' ≤ c ∧ c ≤ 'f' then some (c.toNat - 'a'.toNat + 10)
  else if 'A' ≤ c ∧ c ≤ 'F' then some (c.toNat - 'A'.toNat + 10)
  else none

/-- The characters of a JSON string literal, after the opening quote: stops at
the closing quote and resolves the escape sequences. -/
def parseStringChars : List Char → Option (List Char × List Char)
  | [] => none
  | '"' :: rest => some ([], rest)
  | '\\' :: 'n' :: rest => (parseStringChars rest).map (fun p => ('\n' :: p.1, p.2))
  | '\\' :: 'r' :: rest => (parseStringChars rest).map (fun p => ('\r' :: p.1, p.2))
  | '\\' :: 't' :: rest => (parseStringChars rest).map (fun p => ('\t' :: p.1, p.2))
  | '\\' :: 'b' :: rest => (parseStringChars rest).map (fun p => ('\x08' :: p.1, p.2))
  | '\\' :: 'f' :: rest => (parseStringChars rest).map (fun p => ('\x0c' :: p.1, p.2))
  | '\\' :: '"' :: rest => (parseStringChars rest).map (fun p => ('"' :: p.1, p.2))
  | '\\' :: '\\' :: rest => (parseStringChars rest).map (fun p => ('\\' :: p.1, p.2))
  | '\\' :: '/' :: rest => (parseStringChars rest).map (fun p => ('/' :: p.1, p.2))
  | '\\' :: 'u' :: h1 :: h2 :: h3 :: h4 :: rest =>
    match hexDigitVal h1, hexDigitVal h2, hexDigitVal h3, hexDigitVal h4 with
    | some a, some b, some c, some d =>
      (parseStringChars rest).map
        (fun p => (Char.ofNat (((a * 16 + b) * 16 + c) * 16 + d) :: p.1, p.2))
    | _, _, _, _ => none
  | '\\' :: _ => none
  | c :: rest => (parseStringChars rest).map (fun p => (c :: p.1, p.2))

/-- Digit-run to natural number. -/
def digitsToNat (ds : List Char) : Nat :=
  ds.foldl (fun acc c => acc * 10 + (c.toNat - '0'.toNat)) 0

/-- A JSON integer numeral: optional minus sign, then digits with no redundant
leading zero.  This is the integer fragment of JSON numbers: fraction and
exponent parts are not representable in the model and make the parse fail. -/
def parseNumber (cs : List Char) : Option (JsValue × List Char) :=
  let signed := match cs with
    | '-' :: rest => (true, rest)
    | _ => (false, cs)
  let ds := signed.2.takeWhile Char.isDigit
  let rest := signed.2.dropWhile Char.isDigit
  if ds.isEmpty then none
  else if ds.length > 1 ∧ ds.head? = some '0' then none
  else
    let n : Int := Int.ofNat (digitsToNat ds)
    some (.num (if signed.1 then -n else n), rest)

mutual

/-- Recursive-descent model of JSON.parse, fuelled to stay structural.  The
fuel only bounds nesting: parseJson below supplies more fuel than any input
can consume. -/
def parseValue : Nat → List Char → Option (JsValue × List Char)
  | 0, _ => none
  | fuel + 1, cs =>
    match skipWs cs with
    | 'n' :: 'u' :: 'l' :: 'l' :: rest => some (.null, rest)
    | 't' :: 'r' :: 'u' :: 'e' :: rest => some (.bool true, rest)
    | 'f' :: 'a' :: 'l' :: 's' :: 'e' :: rest => some (.bool false, rest)
    | '"' :: rest => (parseStringChars rest).map (fun p => (.str (String.mk p.1), p.2))
    | '[' :: rest =>
      (match skipWs rest with
       | ']' :: r2 => some (.arr [], r2)
       | _ => (parseArrayItems fuel rest).map (fun p => (.arr p.1, p.2)))
    | '\x7b' :: rest =>
      (match skipWs rest with
       | '\x7d' :: r2 => some (.obj [], r2)
       | _ => (parseObjItems fuel rest).map (fun p => (.obj p.1, p.2)))
    | c :: rest => if c = '-' ∨ c.isDigit then parseNumber (c :: rest) else none
    | [] => none
termination_by structural fuel => fuel

/-- The comma-separated items of a non-empty JSON array, up to and including
the closing bracket. -/
def parseArrayItems : Nat → List Char → Option (List JsValue × List Char)
  | 0, _ => none
  | fuel + 1, cs =>
    match parseValue fuel cs with
    | none => none
    | some (v, rest) =>
      match skipWs rest with
      | ',' :: r2 => (parseArrayItems fuel r2).map (fun p => (v :: p.1, p.2))
      | ']' :: r2 => some ([v], r2)
      | _ => none
termination_by structural fuel => fuel

/-- The comma-separated key/value entries of a non-empty JSON object, up to
and including the closing brace. -/
def parseObjItems : Nat → List Char → Option (List (String × JsValue) × List Char)
  | 0, _ => none
  | fuel + 1, cs =>
    match skipWs cs with
    | '"' :: r1 =>
      match parseStringChars r1 with
      | none => none
      | some (key, r2) =>
        match skipWs r2 with
        | ':' :: r3 =>
          match parseValue fuel r3 with
          | none => none
          | some (v, r4) =>
            match skipWs r4 with
            | ',' :: r5 => (parseObjItems fuel r5).map (fun p => ((String.mk key, v) :: p.1, p.2))
            | '\x7d' :: r5 => some ([(String.mk key, v)], r5)
            | _ => none
        | _ => none
    | _ => none
termination_by structural fuel => fuel

end

/-- Model of JSON.parse on a whole string: parse one value and require only
whitespace to remain.  Returns none where JSON.parse would throw. -/
def parseJson (s : String) : Option JsValue :=
  match parseValue (s.length + 1) s.data with
  | some (v, rest) => if (skipWs rest).isEmpty then some v else none
  | none => none

/-- JavaScript s.substring(0, n), as used for previews and fallbacks. -/
def jsSubstring (s : String) (n : Nat) : String :=
  String.mk (s.data.take n)

/-- The truncation marker object built by sanitizeBody for oversized bodies:
`{_truncated: true, _originalSize: jsonString.length, _preview: jsonString.substring(0, 500) + '...'}`. -/
def truncMarker (jsonString : String) : JsValue :=
  .obj [("_truncated", .bool true),
        ("_originalSize", .num (Int.ofNat jsonString.length)),
        ("_preview", .str (jsSubstring jsonString 500 ++ "..."))]

/-- The catch-branch fallback of sanitizeBody: the plain string, truncated to
500 characters with an ellipsis when longer. -/
def fallbackString (s : String) : String :=
  if s.length > 500 then jsSubstring s 500 ++ "..." else s

/-- The serialized string sanitizeBody measures:
`typeof body === 'string' ? body : JSON.stringify(body)`. -/
def jsonStringOf (body : JsValue) : String :=
  match body with
  | .str s => s
  | _ => stringify body

/-- sanitizeBody (src/utils.ts lines 54-82).  Falsy input returns undefined;
an input whose serialized form exceeds 10,000 characters becomes the
truncation marker; otherwise a string input is parsed (the catch branch
falling back to the 500-character-truncated plain string) and object-like
values are redacted field-wise. -/
def sanitizeBody (body : JsValue) : JsValue :=
  if isFalsy body then .undef
  else
    let jsonString := jsonStringOf body
    if jsonString.length > 10000 then truncMarker jsonString
    else
      match body with
      | .str s =>
        (match parseJson s with
         | some parsed => if isObjLike parsed then redactSensitiveFields parsed else parsed
         | none => .str (fallbackString s))
      | _ => if isObjLike body then redactSensitiveFields body else body

/-- First-match key lookup among an object's entries (property access on the
modelled object; entries produced by Object.entries have distinct keys). -/
def lookupField : List (String × JsValue) → String → Option JsValue
  | [], _ => none
  | (k', v) :: rest, k => if k' = k then some v else lookupField rest k

/-- One step of a path into a JsValue: an object property or an array index. -/
inductive Step where
  | field : String → Step
  | index : Nat → Step

/-- Follow a path of property accesses and array indexings into a value. -/
def JsValue.get? : JsValue → List Step → Option JsValue
  | v, [] => some v
  | .obj fields, .field k :: ps =>
    (match lookupField fields k with
     | some v => v.get? ps
     | none => none)
  | .arr elems, .index i :: ps =>
    (match elems[i]? with
     | some v => v.get? ps
     | none => none)
  | _, _ => none

/-- A path is clean when none of the property names on it is sensitive:
redaction never replaces a value reached along such a path wholesale. -/
def cleanPath : List Step → Bool
  | [] => true
  | .field k :: ps => !isSensitiveKey k && cleanPath ps
  | .index _ :: ps => cleanPath ps

mutual

/-- No object key anywhere inside the value is sensitive. -/
def noSensitiveInside : JsValue → Bool
  | .arr elems => noSensitiveInsideElems elems
  | .obj fields => noSensitiveInsideFields fields
  | _ => true
termination_by structural v => v

/-- noSensitiveInside, on the elements of an array. -/
def noSensitiveInsideElems : List JsValue → Bool
  | [] => true
  | v :: rest => noSensitiveInside v && noSensitiveInsideElems rest
termination_by structural l => l

/-- noSensitiveInside, on the entries of an object. -/
def noSensitiveInsideFields : List (String × JsValue) → Bool
  | [] => true
  | (k, v) :: rest => !isSensitiveKey k && noSensitiveInside v && noSensitiveInsideFields rest
termination_by structural l => l

end

/-- The error descriptor of a LogPayload. -/
structure ErrorInfo where
  message : String
  stack : Option String
deriving Repr

/-- LogPayload (src/types.ts): one captured request/response observation. -/
structure LogPayload where
  traceId : String
  timestamp : String
  method : String
  path : String
  statusCode : Int
  duration : Int
  requestHeaders : Option (List (String × String)) := none
  responseHeaders : Option (List (String × String)) := none
  requestBody : Option JsValue := none
  responseBody : Option JsValue := none
  errorInfo : Option ErrorInfo := none
  metadata : Option (List (String × JsValue)) := none

/-- LogQueue (src/queue.ts): a bounded in-memory FIFO buffer.  The front of
the list is the oldest element. -/
structure LogQueue where
  queue : List LogPayload
  maxSize : Nat

/-- The LogQueue constructor; the source defaults maxSize to 1000. -/
def LogQueue.new (maxSize : Nat := 1000) : LogQueue :=
  ⟨[], maxSize⟩

/-- enqueue (src/queue.ts lines 193-199): when full, shift off the oldest
element, then push the new one; never blocks, never fails. -/
def LogQueue.enqueue (q : LogQueue) (log : LogPayload) : LogQueue :=
  if q.queue.length ≥ q.maxSize then ⟨q.queue.tail ++ [log], q.maxSize⟩
  else ⟨q.queue ++ [log], q.maxSize⟩

/-- dequeue (src/queue.ts lines 204-206): `splice(0, batchSize)` — returns the
removed oldest elements and the queue that remains. -/
def LogQueue.dequeue (q : LogQueue) (batchSize : Nat) : List LogPayload × LogQueue :=
  (q.queue.take batchSize, ⟨q.queue.drop batchSize, q.maxSize⟩)

/-- size (src/queue.ts). -/
def LogQueue.size (q : LogQueue) : Nat :=
  q.queue.length

/-- isEmpty (src/queue.ts). -/
def LogQueue.isEmpty (q : LogQueue) : Bool :=
  q.queue.length == 0

/-- clear (src/queue.ts). -/
def LogQueue.clear (q : LogQueue) : LogQueue :=
  ⟨[], q.maxSize⟩

/-- A sequence of enqueues applied in order. -/
def LogQueue.enqueueAll (q : LogQueue) (logs : List LogPayload) : LogQueue :=
  logs.foldl LogQueue.enqueue q

/-- Outcome of one fetch in sendBatch: either the promise resolves with a
response carrying a status code, or it rejects (transport error, timeout or
abort). -/
inductive FetchOutcome where
  | response : Nat → FetchOutcome
  | transportError : FetchOutcome

/-- Whether one attempt lands in the catch block of sendBatch: a rejected
fetch does, and a resolved response with `!response.ok` (status outside
200-299) throws NetworkError into the same catch. -/
def outcomeFails : FetchOutcome → Bool
  | .response status => !(200 ≤ status && status ≤ 299)
  | .transportError => true

/-- maxAttempts in sendBatch (src/client.ts line 100). -/
def maxAttempts : Nat := 3

/-- What one call of sendBatch did: whether it returned normally (ok) or threw
to its caller, how many fetch attempts it performed, and the backoff delays in
milliseconds slept between attempts. -/
structure SendResult where
  ok : Bool
  attempts : Nat
  delays : List Nat
deriving Repr

/-- sendBatch (src/client.ts lines 99-193), abstracted over the transport as a
function from the attempt number to that attempt's fetch outcome.  On a failed
attempt with `attempt < maxAttempts` it sleeps `Math.pow(2, attempt) * 1000`
milliseconds and recurses with attempt + 1; after a failed final attempt it
rethrows (ok = false). -/
def sendBatchFrom (transport : Nat → FetchOutcome) (attempt : Nat) : SendResult :=
  if outcomeFails (transport attempt) then
    if attempt < maxAttempts then
      let r := sendBatchFrom transport (attempt + 1)
      ⟨r.ok, r.attempts + 1, 2 ^ attempt * 1000 :: r.delays⟩
    else ⟨false, 1, []⟩
  else ⟨true, 1, []⟩
termination_by maxAttempts - attempt
decreasing_by simp [maxAttempts] at *; omega

/-- What one call of flush did: the queue it leaves behind, the logs of the
batch it constructed (none when no batch was built), the trace of the send it
performed (none when no network call was made), and whether the local
catch-and-warn fired. -/
structure FlushInfo where
  newQueue : LogQueue
  sentLogs : Option (List LogPayload)
  sendTrace : Option SendResult
  warned : Bool

/-- flush (src/client.ts lines 75-93).  Returns early on an empty queue,
dequeues up to batchSize, returns if nothing was dequeued, otherwise builds
the batch and awaits sendBatch inside try/catch: a send failure is warned
about and swallowed, never rethrown — so flush always returns with Except.ok,
and the dequeued events are never requeued. -/
def flush (batchSize : Nat) (transport : Nat → FetchOutcome) (q : LogQueue) :
    Except String FlushInfo :=
  if q.isEmpty then .ok ⟨q, none, none, false⟩
  else
    let dq := q.dequeue batchSize
    if dq.1.length == 0 then .ok ⟨dq.2, none, none, false⟩
    else
      let r := sendBatchFrom transport 1
      if r.ok then .ok ⟨dq.2, some dq.1, some r, false⟩
      else .ok ⟨dq.2, some dq.1, some r, true⟩

/-- LogSentinelConfig (src/types.ts); the sample rate, a JavaScript float in
the unit interval, is modelled as a rational. -/
structure LogSentinelConfig where
  apiKey : String
  baseUrl : String
  enabled : Option Bool := none
  sampleRate : Option Rat := none
  batchSize : Option Nat := none
  batchInterval : Option Nat := none
  maxQueueSize : Option Nat := none
  timeout : Option Nat := none
  debug : Option Bool := none

/-- The constructed LogSentinelClient: its config snapshot and its queue. -/
structure ClientInst where
  config : LogSentinelConfig
  queue : LogQueue

/-- The LogSentinelClient constructor (src/client.ts lines 15-30): stores the
config and creates the queue with config.maxQueueSize (LogQueue defaults to
1000 when it is undefined). -/
def newClient (config : LogSentinelConfig) : ClientInst :=
  ⟨config, LogQueue.new (config.maxQueueSize.getD 1000)⟩

/-- getClient (src/client.ts lines 220-225) over the module-level singleton
state: constructs the client only when the instance slot is null, and
otherwise returns the existing instance untouched, ignoring the config
argument. -/
def getClient (config : LogSentinelConfig) (inst : Option ClientInst) :
    ClientInst × Option ClientInst :=
  match inst with
  | none =>
    let c := newClient config
    (c, some c)
  | some c => (c, some c)

/-- resetClient (src/client.ts lines 230-235): destroys the instance (a final
fire-and-forget flush, irrelevant to the singleton slot) and nulls the slot. -/
def resetClient (inst : Option ClientInst) : Option ClientInst :=
  match inst with
  | none => none
  | some _ => none

/-- A concrete payload used by the witnesses. -/
def samplePayload (tid : String) : LogPayload :=
  { traceId := tid, timestamp := "1970-01-01T00:00:00.000Z", method := "GET",
    path := "/", statusCode := 200, duration := 0 }

theorem enqueueAll_nil (q : LogQueue) : q.enqueueAll [] = q := rfl

theorem enqueueAll_cons (q : LogQueue) (x : LogPayload) (xs : List LogPayload) :
    q.enqueueAll (x :: xs) = (q.enqueue x).enqueueAll xs := rfl

/-- Shape of the queue after any sequence of enqueues, starting from any state
within capacity: the enqueued elements are appended and just enough oldest
elements are dropped from the front to stay within maxSize. -/
theorem enqueueAll_spec (xs : List LogPayload) :
    ∀ q : LogQueue, 0 < q.maxSize → q.queue.length ≤ q.maxSize →
      (q.enqueueAll xs).maxSize = q.maxSize ∧
      (q.enqueueAll xs).queue = (q.queue ++ xs).drop (q.queue.length + xs.length - q.maxSize) := by
  induction xs with
  | nil =>
    intro q _ hlen
    refine ⟨rfl, ?_⟩
    have h0 : q.queue.length + ([] : List LogPayload).length - q.maxSize = 0 := by
      simp [Nat.sub_eq_zero_of_le hlen]
    show q.queue = List.drop (q.queue.length + ([] : List LogPayload).length - q.maxSize)
        (q.queue ++ [])
    rw [h0]
    simp
  | cons x xs ih =>
    rintro ⟨l, c⟩ hc hlen
    by_cases hfull : l.length ≥ c
    · have hl : l.length = c := le_antisymm hlen hfull
      obtain ⟨hd, tl, rfl⟩ : ∃ hd tl, l = hd :: tl := by
        cases l with
        | nil => exfalso; simp at hl; revert hc; rw [hl]; simp
        | cons a b => exact ⟨a, b, rfl⟩
      have hl' : tl.length + 1 = c := by simpa using hl
      have step : LogQueue.enqueue ⟨hd :: tl, c⟩ x = ⟨tl ++ [x], c⟩ := by
        show (if (hd :: tl).length ≥ c then (⟨(hd :: tl).tail ++ [x], c⟩ : LogQueue)
              else ⟨(hd :: tl) ++ [x], c⟩) = ⟨tl ++ [x], c⟩
        rw [if_pos hfull]
        rfl
      rw [enqueueAll_cons, step]
      have ih' := ih ⟨tl ++ [x], c⟩ (by simpa using hc)
        (by show (tl ++ [x]).length ≤ c
            have h1 : (tl ++ [x]).length = tl.length + 1 := by simp
            omega)
      refine ⟨ih'.1, ?_⟩
      rw [ih'.2]
      show List.drop ((tl ++ [x]).length + xs.length - c) ((tl ++ [x]) ++ xs)
          = List.drop ((hd :: tl).length + (x :: xs).length - c) ((hd :: tl) ++ (x :: xs))
      have hidx1 : (tl ++ [x]).length + xs.length - c = xs.length := by
        have h1 : (tl ++ [x]).length = tl.length + 1 := by simp
        omega
      have hidx2 : (hd :: tl).length + (x :: xs).length - c = xs.length + 1 := by
        have h1 : (hd :: tl).length = tl.length + 1 := rfl
        have h2 : (x :: xs).length = xs.length + 1 := rfl
        omega
      rw [hidx1, hidx2]
      have hlist : (tl ++ [x]) ++ xs = tl ++ (x :: xs) := by simp
      rw [hlist]
      show List.drop xs.length (tl ++ (x :: xs))
          = List.drop (xs.length + 1) (hd :: (tl ++ (x :: xs)))
      rw [List.drop_succ_cons]
    · have hlt : l.length < c := by omega
      have step : LogQueue.enqueue ⟨l, c⟩ x = ⟨l ++ [x], c⟩ := by
        show (if l.length ≥ c then (⟨l.tail ++ [x], c⟩ : LogQueue)
              else ⟨l ++ [x], c⟩) = ⟨l ++ [x], c⟩
        rw [if_neg hfull]
      rw [enqueueAll_cons, step]
      have ih' := ih ⟨l ++ [x], c⟩ (by simpa using hc)
        (by show (l ++ [x]).length ≤ c
            have h1 : (l ++ [x]).length = l.length + 1 := by simp
            omega)
      refine ⟨ih'.1, ?_⟩
      rw [ih'.2]
      show List.drop ((l ++ [x]).length + xs.length - c) ((l ++ [x]) ++ xs)
          = List.drop (l.length + (x :: xs).length - c) (l ++ (x :: xs))
      have hidx : (l ++ [x]).length + xs.length - c = l.length + (x :: xs).length - c := by
        have h1 : (l ++ [x]).length = l.length + 1 := by simp
        have h2 : (x :: xs).length = xs.length + 1 := rfl
        omega
      have hlist : (l ++ [x]) ++ xs = l ++ (x :: xs) := by simp
      rw [hidx, hlist]

/-- Claim C1: for every queue created with positive capacity and every
sequence of enqueues, size stays at most the capacity after each operation,
and an enqueue into a full queue drops exactly the oldest element (the head)
and appends the new one; enqueue is total, so it never blocks or fails. -/
theorem C1_queue_bound (cap : Nat) (hcap : 0 < cap) (xs : List LogPayload) :
    (∀ n : Nat, ((LogQueue.new cap).enqueueAll (xs.take n)).size ≤ cap) ∧
    (∀ (q : LogQueue) (x : LogPayload), q.maxSize = cap → q.size = cap →
      (q.enqueue x).queue = q.queue.tail ++ [x]) := by
  constructor
  · intro n
    have h := enqueueAll_spec (xs.take n) ⟨[], cap⟩ (by simpa using hcap) (by simp)
    show ((⟨[], cap⟩ : LogQueue).enqueueAll (xs.take n)).queue.length ≤ cap
    rw [h.2]
    simp only [List.length_drop, List.nil_append, List.length_nil]
    omega
  · rintro ⟨l, c⟩ x hmax hsize
    have hc : c = cap := hmax
    have hl : l.length = cap := hsize
    have hcond : l.length ≥ c := by omega
    show (if l.length ≥ c then (⟨l.tail ++ [x], c⟩ : LogQueue)
          else ⟨l ++ [x], c⟩).queue = l.tail ++ [x]
    rw [if_pos hcond]

/-- Witness for C1 at capacity 2 with three enqueues. -/
theorem C1_queue_bound_witness :
    ((LogQueue.new 2).enqueueAll
        ([samplePayload "a", samplePayload "b", samplePayload "c"].take 3)).size ≤ 2 ∧
    ((LogQueue.mk [samplePayload "a", samplePayload "b"] 2).enqueue (samplePayload "c")).queue
      = (LogQueue.mk [samplePayload "a", samplePayload "b"] 2).queue.tail ++ [samplePayload "c"] :=
  ⟨(C1_queue_bound 2 (by decide) [samplePayload "a", samplePayload "b", samplePayload "c"]).1 3,
   (C1_queue_bound 2 (by decide) []).2
     (LogQueue.mk [samplePayload "a", samplePayload "b"] 2) (samplePayload "c") rfl rfl⟩

/-- Counterexample to claim C2 as stated: enqueue two events into a fresh
queue of capacity 1 and dequeue 2 — the returned sequence is not the enqueued
sequence, because the first event was evicted by the overflow policy. -/
theorem C2_fifo_counterexample :
    (((LogQueue.new 1).enqueueAll [samplePayload "a", samplePayload "b"]).dequeue 2).1
      ≠ [samplePayload "a", samplePayload "b"] := by
  intro h
  exact absurd (congrArg List.length h) (by decide)

/-- Claim C2 (amended): after any sequence of enqueues into a fresh queue of
positive capacity, the queue holds the most recent elements in enqueue order;
dequeue(n) returns the n oldest elements still present in FIFO order (all of
them when fewer than n are present, the empty sequence on an empty queue) and
removes exactly those; and provided no overflow occurred (at most capacity
elements were enqueued), dequeue(n) with n at least the element count returns
exactly the enqueued sequence.  dequeue is total: it never errors. -/
theorem C2_fifo_dequeue (cap : Nat) (hcap : 0 < cap) (xs : List LogPayload) (n : Nat) :
    ((LogQueue.new cap).enqueueAll xs).queue = xs.drop (xs.length - cap) ∧
    (((LogQueue.new cap).enqueueAll xs).dequeue n).1 = (xs.drop (xs.length - cap)).take n ∧
    (((LogQueue.new cap).enqueueAll xs).dequeue n).2.queue = (xs.drop (xs.length - cap)).drop n ∧
    (xs.length ≤ cap → xs.length ≤ n → (((LogQueue.new cap).enqueueAll xs).dequeue n).1 = xs) := by
  have h := enqueueAll_spec xs ⟨[], cap⟩ (by simpa using hcap) (by simp)
  have hq : ((LogQueue.new cap).enqueueAll xs).queue = xs.drop (xs.length - cap) := by
    show ((⟨[], cap⟩ : LogQueue).enqueueAll xs).queue = xs.drop (xs.length - cap)
    rw [h.2]
    simp
  refine ⟨hq, ?_, ?_, ?_⟩
  · show ((LogQueue.new cap).enqueueAll xs).queue.take n = _
    rw [hq]
  · show ((LogQueue.new cap).enqueueAll xs).queue.drop n = _
    rw [hq]
  · intro h1 h2
    show ((LogQueue.new cap).enqueueAll xs).queue.take n = xs
    rw [hq, Nat.sub_eq_zero_of_le h1, List.drop_zero]
    exact List.take_of_length_le h2

/-- Witness for the amended C2: two enqueues within capacity are returned in
enqueue order by one dequeue. -/
theorem C2_fifo_dequeue_witness :
    (((LogQueue.new 5).enqueueAll [samplePayload "a", samplePayload "b"]).dequeue 9).1
      = [samplePayload "a", samplePayload "b"] :=
  (C2_fifo_dequeue 5 (by decide) [samplePayload "a", samplePayload "b"] 9).2.2.2
    (by decide) (by decide)

/-- Redaction leaves non-object-like values untouched. -/
theorem redact_scalar (v : JsValue) (h : isObjLike v = false) :
    redactSensitiveFields v = v := by
  cases v with
  | arr elems => simp [isObjLike] at h
  | obj fields => simp [isObjLike] at h
  | undef => rfl
  | null => rfl
  | bool b => rfl
  | num n => rfl
  | str s => rfl

/-- redactElems is List.map of the redaction. -/
theorem redactElems_eq_map (l : List JsValue) :
    redactElems l = l.map redactSensitiveFields := by
  induction l with
  | nil => rfl
  | cons v rest ih => simp [redactElems, ih]

/-- Unfolding equation for redactFields on a cons cell. -/
theorem redactFields_cons (k' : String) (v : JsValue) (rest : List (String × JsValue)) :
    redactFields ((k', v) :: rest)
      = (if isSensitiveKey k' then (k', JsValue.str "[REDACTED]")
         else if isObjLike v then (k', redactSensitiveFields v)
         else (k', v)) :: redactFields rest := rfl

/-- A redacted entry keeps its key; its value is the marker when the key is
sensitive and the redacted old value otherwise. -/
theorem redactEntry_eq (k' : String) (v : JsValue) :
    (if isSensitiveKey k' then (k', JsValue.str "[REDACTED]")
     else if isObjLike v then (k', redactSensitiveFields v)
     else (k', v))
      = (k', if isSensitiveKey k' then JsValue.str "[REDACTED]" else redactSensitiveFields v) := by
  cases hsens : isSensitiveKey k'
  · cases hobj : isObjLike v
    · simp [hobj, redact_scalar v hobj]
    · simp [hobj]
  · simp

/-- Looking a key up after redacting an object's entries: a sensitive key now
holds the marker, any other key holds its redacted old value. -/
theorem lookupField_redactFields (l : List (String × JsValue)) (k : String) (u : JsValue)
    (h : lookupField l k = some u) :
    lookupField (redactFields l) k
      = some (if isSensitiveKey k then JsValue.str "[REDACTED]" else redactSensitiveFields u) := by
  induction l with
  | nil => exact Option.noConfusion h
  | cons kv rest ih =>
    obtain ⟨k', v⟩ := kv
    rw [redactFields_cons, redactEntry_eq]
    by_cases hk : k' = k
    · subst hk
      have hv : v = u := by simpa [lookupField] using h
      subst hv
      simp [lookupField]
    · have h' : lookupField rest k = some u := by simpa [lookupField, hk] using h
      simp [lookupField, hk, ih h']

/-- Path decomposition for JsValue.get?. -/
theorem get?_append (p q : List Step) :
    ∀ v : JsValue, v.get? (p ++ q) = (v.get? p).bind (fun u => u.get? q) := by
  induction p with
  | nil => intro v; simp [JsValue.get?]
  | cons s p ih =>
    intro v
    cases s with
    | field k =>
      cases v with
      | obj fields =>
        show (match lookupField fields k with
              | some u => u.get? (p ++ q)
              | none => none)
            = (match lookupField fields k with
              | some u => u.get? p
              | none => none).bind (fun u => u.get? q)
        cases hlk : lookupField fields k
        · rfl
        · simp [ih]
      | undef => rfl
      | null => rfl
      | bool b => rfl
      | num n => rfl
      | str s => rfl
      | arr elems => rfl
    | index i =>
      cases v with
      | arr elems =>
        show (match elems[i]? with
              | some u => u.get? (p ++ q)
              | none => none)
            = (match elems[i]? with
              | some u => u.get? p
              | none => none).bind (fun u => u.get? q)
        cases hel : elems[i]?
        · rfl
        · simp [ih]
      | undef => rfl
      | null => rfl
      | bool b => rfl
      | num n => rfl
      | str s => rfl
      | obj fields => rfl

/-- Along a clean path (no sensitive property name on it), redaction commutes
with path lookup: the value found in the redacted structure is the redaction
of the value found in the original. -/
theorem get?_redact (ps : List Step) :
    ∀ v w : JsValue, cleanPath ps = true → v.get? ps = some w →
      (redactSensitiveFields v).get? ps = some (redactSensitiveFields w) := by
  induction ps with
  | nil =>
    intro v w _ h
    have hv : v = w := by simpa [JsValue.get?] using h
    subst hv
    simp [JsValue.get?]
  | cons s ps ih =>
    intro v w hclean h
    cases s with
    | field k =>
      cases v with
      | obj fields =>
        have hparts : isSensitiveKey k = false ∧ cleanPath ps = true := by
          simpa [cleanPath, Bool.and_eq_true, Bool.not_eq_true'] using hclean
        have hmatch : (match lookupField fields k with
              | some u => u.get? ps
              | none => none) = some w := h
        cases hlk : lookupField fields k with
        | none => rw [hlk] at hmatch; exact Option.noConfusion hmatch
        | some u =>
          rw [hlk] at hmatch
          have hlk2 := lookupField_redactFields fields k u hlk
          rw [hparts.1] at hlk2
          show (match lookupField (redactFields fields) k with
                | some u => u.get? ps
                | none => none) = some (redactSensitiveFields w)
          rw [hlk2]
          simp only [Bool.false_eq_true, if_false]
          exact ih u w hparts.2 hmatch
      | undef => exact Option.noConfusion h
      | null => exact Option.noConfusion h
      | bool b => exact Option.noConfusion h
      | num n => exact Option.noConfusion h
      | str s => exact Option.noConfusion h
      | arr elems => exact Option.noConfusion h
    | index i =>
      cases v with
      | arr elems =>
        have hclean' : cleanPath ps = true := by simpa [cleanPath] using hclean
        have hmatch : (match elems[i]? with
              | some u => u.get? ps
              | none => none) = some w := h
        cases hel : elems[i]? with
        | none => rw [hel] at hmatch; exact Option.noConfusion hmatch
        | some u =>
          rw [hel] at hmatch
          have hel2 : (redactElems elems)[i]? = some (redactSensitiveFields u) := by
            rw [redactElems_eq_map, List.getElem?_map, hel]
            rfl
          show (match (redactElems elems)[i]? with
                | some u => u.get? ps
                | none => none) = some (redactSensitiveFields w)
          rw [hel2]
          exact ih u w hclean' hmatch
      | undef => exact Option.noConfusion h
      | null => exact Option.noConfusion h
      | bool b => exact Option.noConfusion h
      | num n => exact Option.noConfusion h
      | str s => exact Option.noConfusion h
      | obj fields => exact Option.noConfusion h

/-- A value sitting at a sensitive property name reached along a clean path is
replaced by the redaction marker. -/
theorem get?_redact_sensitive (v : JsValue) (ps : List Step) (k : String) (w : JsValue)
    (hclean : cleanPath ps = true) (hsens : isSensitiveKey k = true)
    (h : v.get? (ps ++ [Step.field k]) = some w) :
    (redactSensitiveFields v).get? (ps ++ [Step.field k]) = some (.str "[REDACTED]") := by
  rw [get?_append] at h
  cases hv : v.get? ps with
  | none => rw [hv] at h; exact Option.noConfusion h
  | some u =>
    rw [hv] at h
    simp only [Option.some_bind] at h
    cases u with
    | obj fields =>
      have hmm : (match lookupField fields k with
            | some x => x.get? ([] : List Step)
            | none => none) = some w := h
      cases hlk : lookupField fields k with
      | none => rw [hlk] at hmm; exact Option.noConfusion hmm
      | some x =>
        have hredact := get?_redact ps v (.obj fields) hclean hv
        rw [get?_append, hredact]
        simp only [Option.some_bind]
        have hlk2 := lookupField_redactFields fields k x hlk
        rw [hsens] at hlk2
        show (match lookupField (redactFields fields) k with
              | some y => y.get? ([] : List Step)
              | none => none) = some (JsValue.str "[REDACTED]")
        rw [hlk2]
        simp [JsValue.get?]
    | undef => exact Option.noConfusion h
    | null => exact Option.noConfusion h
    | bool b => exact Option.noConfusion h
    | num n => exact Option.noConfusion h
    | str s => exact Option.noConfusion h
    | arr elems => exact Option.noConfusion h

/-- Claim C3: for every object-like body within the serialization threshold,
sanitizeBody performs field-level redaction: every key whose lowercase form
contains an element of the sensitive-field list as a substring has its value
replaced by the marker at every nesting depth (along paths not already
redacted wholesale), and arrays are redacted element-wise preserving order and
length. -/
theorem C3_redaction_matching (body : JsValue) (hobj : isObjLike body = true)
    (hlen : (jsonStringOf body).length ≤ 10000) :
    sanitizeBody body = redactSensitiveFields body ∧
    (∀ (ps : List Step) (k : String) (w : JsValue), cleanPath ps = true →
      isSensitiveKey k = true → body.get? (ps ++ [Step.field k]) = some w →
      (sanitizeBody body).get? (ps ++ [Step.field k]) = some (.str "[REDACTED]")) ∧
    (∀ (ps : List Step) (elems : List JsValue), cleanPath ps = true →
      body.get? ps = some (.arr elems) →
      (sanitizeBody body).get? ps = some (.arr (elems.map redactSensitiveFields))) := by
  have hfalsy : isFalsy body = false := by
    cases body <;> first | rfl | simp [isObjLike] at hobj
  have hgt : ¬ (jsonStringOf body).length > 10000 := by omega
  have hbridge : sanitizeBody body = redactSensitiveFields body := by
    cases body with
    | arr elems => simp [sanitizeBody, hfalsy, hgt, isObjLike]
    | obj fields => simp [sanitizeBody, hfalsy, hgt, isObjLike]
    | undef => simp [isObjLike] at hobj
    | null => simp [isObjLike] at hobj
    | bool b => simp [isObjLike] at hobj
    | num n => simp [isObjLike] at hobj
    | str s => simp [isObjLike] at hobj
  refine ⟨hbridge, ?_, ?_⟩
  · intro ps k w hclean hsens hget
    rw [hbridge]
    exact get?_redact_sensitive body ps k w hclean hsens hget
  · intro ps elems hclean hget
    rw [hbridge]
    have h := get?_redact ps body (.arr elems) hclean hget
    rw [h]
    show some (JsValue.arr (redactElems elems)) = some (JsValue.arr (elems.map redactSensitiveFields))
    rw [redactElems_eq_map]

/-- A concrete body for the C3 witness. -/
def c3Body : JsValue :=
  .obj [("password", .str "x"),
        ("user", .obj [("Token", .str "t"), ("name", .str "n")]),
        ("items", .arr [.num 1, .num 2])]

/-- Witness for C3: the nested mixed-case Token key is redacted and the array
is preserved element-wise on a concrete body. -/
theorem C3_redaction_matching_witness :
    (sanitizeBody c3Body).get? [Step.field "user", Step.field "Token"]
        = some (.str "[REDACTED]") ∧
    (sanitizeBody c3Body).get? [Step.field "items"]
        = some (.arr ([JsValue.num 1, JsValue.num 2].map redactSensitiveFields)) :=
  ⟨(C3_redaction_matching c3Body rfl (by decide)).2.1 [Step.field "user"] "Token" (.str "t")
      (by decide) (by decide) rfl,
   (C3_redaction_matching c3Body rfl (by decide)).2.2 [Step.field "items"]
      [JsValue.num 1, JsValue.num 2] (by decide) rfl⟩

mutual

/-- A value without any sensitive key anywhere inside is left exactly as it
was by redaction. -/
theorem redact_of_noSensitive : ∀ v : JsValue, noSensitiveInside v = true →
    redactSensitiveFields v = v
  | .undef, _ => rfl
  | .null, _ => rfl
  | .bool _, _ => rfl
  | .num _, _ => rfl
  | .str _, _ => rfl
  | .arr elems, h => congrArg JsValue.arr (redactElems_of_noSensitive elems h)
  | .obj fields, h => congrArg JsValue.obj (redactFields_of_noSensitive fields h)
termination_by structural v => v

/-- redact_of_noSensitive, for the elements of an array. -/
theorem redactElems_of_noSensitive : ∀ l : List JsValue, noSensitiveInsideElems l = true →
    redactElems l = l
  | [], _ => rfl
  | v :: rest, h => by
    have h1 : noSensitiveInside v = true ∧ noSensitiveInsideElems rest = true := by
      simpa [noSensitiveInsideElems, Bool.and_eq_true] using h
    show redactSensitiveFields v :: redactElems rest = v :: rest
    rw [redact_of_noSensitive v h1.1, redactElems_of_noSensitive rest h1.2]
termination_by structural l => l

/-- redact_of_noSensitive, for the entries of an object. -/
theorem redactFields_of_noSensitive : ∀ l : List (String × JsValue),
    noSensitiveInsideFields l = true → redactFields l = l
  | [], _ => rfl
  | (k, v) :: rest, h => by
    have h1 : isSensitiveKey k = false ∧ noSensitiveInside v = true ∧
        noSensitiveInsideFields rest = true := by
      have h2 : (!isSensitiveKey k && noSensitiveInside v && noSensitiveInsideFields rest)
          = true := h
      simp only [Bool.and_eq_true, Bool.not_eq_true'] at h2
      exact ⟨h2.1.1, h2.1.2, h2.2⟩
    rw [redactFields_cons, redactEntry_eq, redact_of_noSensitive v h1.2.1,
      redactFields_of_noSensitive rest h1.2.2, h1.1]
    simp
termination_by structural l => l

end

/-- cleanPath distributes over path concatenation. -/
theorem cleanPath_append (p q : List Step) :
    cleanPath (p ++ q) = (cleanPath p && cleanPath q) := by
  induction p with
  | nil => simp [cleanPath]
  | cons s p ih =>
    cases s with
    | field k => simp [cleanPath, ih, Bool.and_assoc]
    | index i => simp [cleanPath, ih]

/-- Frame property of redaction: a value reached at a non-sensitive key along
a clean path, containing no sensitive key inside, is returned unaltered. -/
theorem get?_redact_frame (v : JsValue) (ps : List Step) (k : String) (w : JsValue)
    (hclean : cleanPath ps = true) (hk : isSensitiveKey k = false)
    (hw : noSensitiveInside w = true)
    (h : v.get? (ps ++ [Step.field k]) = some w) :
    (redactSensitiveFields v).get? (ps ++ [Step.field k]) = some w := by
  have hclean2 : cleanPath (ps ++ [Step.field k]) = true := by
    rw [cleanPath_append, hclean]
    simp [cleanPath, hk]
  have hr := get?_redact (ps ++ [Step.field k]) v w hclean2 h
  rw [hr, redact_of_noSensitive w hw]

/-- On an object-like body within the serialization threshold, sanitizeBody is
exactly redactSensitiveFields. -/
theorem sanitizeBody_objLike (body : JsValue) (hobj : isObjLike body = true)
    (hlen : (jsonStringOf body).length ≤ 10000) :
    sanitizeBody body = redactSensitiveFields body := by
  have hfalsy : isFalsy body = false := by
    cases body <;> first | rfl | simp [isObjLike] at hobj
  have hgt : ¬ (jsonStringOf body).length > 10000 := by omega
  cases body with
  | arr elems => simp [sanitizeBody, hfalsy, hgt, isObjLike]
  | obj fields => simp [sanitizeBody, hfalsy, hgt, isObjLike]
  | undef => simp [isObjLike] at hobj
  | null => simp [isObjLike] at hobj
  | bool b => simp [isObjLike] at hobj
  | num n => simp [isObjLike] at hobj
  | str s => simp [isObjLike] at hobj

/-- A key spelled password in any letter case is sensitive. -/
theorem isSensitiveKey_of_password (k : String)
    (hlow : k.data.map Char.toLower = "password".data) :
    isSensitiveKey k = true := by
  show sensitiveFields.any (fun field => charsContains (k.data.map Char.toLower) field.data)
      = true
  rw [hlow]
  decide

/-- Counterexample to claim C9 as stated: in an object containing a password
key, other keys do not all keep their original values — a sibling token key is
redacted as well, and the value of the non-sensitive key user is altered
inside (its nested secret entry is redacted). -/
theorem C9_counterexample :
    (JsValue.obj [("PASSWORD", .str "a"), ("token", .str "b"),
        ("user", .obj [("secret", .str "s")])]).get? [Step.field "token"]
        = some (.str "b") ∧
    (sanitizeBody (JsValue.obj [("PASSWORD", .str "a"), ("token", .str "b"),
        ("user", .obj [("secret", .str "s")])])).get?
        [Step.field "token"] = some (.str "[REDACTED]") ∧
    (JsValue.obj [("PASSWORD", .str "a"), ("token", .str "b"),
        ("user", .obj [("secret", .str "s")])]).get?
        [Step.field "user", Step.field "secret"] = some (.str "s") ∧
    (sanitizeBody (JsValue.obj [("PASSWORD", .str "a"), ("token", .str "b"),
        ("user", .obj [("secret", .str "s")])])).get?
        [Step.field "user", Step.field "secret"] = some (.str "[REDACTED]") ∧
    JsValue.str "b" ≠ JsValue.str "[REDACTED]" ∧
    JsValue.str "s" ≠ JsValue.str "[REDACTED]" :=
  ⟨rfl, rfl, rfl, rfl,
   fun h => by injection h with h2; exact absurd h2 (by decide),
   fun h => by injection h with h2; exact absurd h2 (by decide)⟩

/-- Claim C9 (amended): for an object-like body within the serialization
threshold, a key spelled password in any letter case reached along a path with
no sensitive property name has the redaction marker as its value in the
sanitized output; and any key that is itself not sensitive, reached along such
a path, whose value contains no sensitive key anywhere inside, keeps its
original value unaltered. -/
theorem C9_password_redaction_frame (body : JsValue) (hobj : isObjLike body = true)
    (hlen : (jsonStringOf body).length ≤ 10000) :
    (∀ (ps : List Step) (k : String) (w : JsValue), cleanPath ps = true →
        k.data.map Char.toLower = "password".data →
        body.get? (ps ++ [Step.field k]) = some w →
        (sanitizeBody body).get? (ps ++ [Step.field k]) = some (.str "[REDACTED]")) ∧
    (∀ (ps : List Step) (k : String) (w : JsValue), cleanPath ps = true →
        isSensitiveKey k = false → noSensitiveInside w = true →
        body.get? (ps ++ [Step.field k]) = some w →
        (sanitizeBody body).get? (ps ++ [Step.field k]) = some w) := by
  have hbridge := sanitizeBody_objLike body hobj hlen
  constructor
  · intro ps k w hclean hlow hget
    rw [hbridge]
    exact get?_redact_sensitive body ps k w hclean (isSensitiveKey_of_password k hlow) hget
  · intro ps k w hclean hk hw hget
    rw [hbridge]
    exact get?_redact_frame body ps k w hclean hk hw hget

/-- Witness for the amended C9 on a concrete object: the mixed-case Password
key is redacted while the name key keeps its value. -/
theorem C9_password_redaction_frame_witness :
    (sanitizeBody (JsValue.obj [("Password", .str "p"), ("name", .str "n")])).get?
        [Step.field "Password"] = some (.str "[REDACTED]") ∧
    (sanitizeBody (JsValue.obj [("Password", .str "p"), ("name", .str "n")])).get?
        [Step.field "name"] = some (.str "n") :=
  ⟨(C9_password_redaction_frame (JsValue.obj [("Password", .str "p"), ("name", .str "n")])
      rfl (by decide)).1 [] "Password" (.str "p") rfl (by decide) rfl,
   (C9_password_redaction_frame (JsValue.obj [("Password", .str "p"), ("name", .str "n")])
      rfl (by decide)).2 [] "name" (.str "n") rfl (by decide) (by decide) rfl⟩

/-- Redaction of an object-like value is object-like. -/
theorem redact_objLike (v : JsValue) (h : isObjLike v = true) :
    isObjLike (redactSensitiveFields v) = true := by
  cases v with
  | arr elems => rfl
  | obj fields => rfl
  | undef => exact absurd h (by simp [isObjLike])
  | null => exact absurd h (by simp [isObjLike])
  | bool b => exact absurd h (by simp [isObjLike])
  | num n => exact absurd h (by simp [isObjLike])
  | str s => exact absurd h (by simp [isObjLike])

/-- parseNumber only ever produces a num value. -/
theorem parseNumber_ne_undef (cs : List Char) (v : JsValue) (rest : List Char)
    (h : parseNumber cs = some (v, rest)) : v ≠ .undef := by
  dsimp [parseNumber] at h
  split at h
  · exact Option.noConfusion h
  · split at h
    · exact Option.noConfusion h
    · intro hv
      rw [hv] at h
      have := (Option.some.injEq _ _).mp h
      exact JsValue.noConfusion (congrArg Prod.fst this).symm

/-- parseValue never produces the undefined value (JSON has no undefined). -/
theorem parseValue_ne_undef (fuel : Nat) (cs : List Char) (v : JsValue) (rest : List Char)
    (h : parseValue fuel cs = some (v, rest)) : v ≠ .undef := by
  cases fuel with
  | zero => exact Option.noConfusion h
  | succ fuel =>
    rw [parseValue] at h
    split at h
    · intro hv; rw [hv] at h
      exact JsValue.noConfusion (congrArg Prod.fst ((Option.some.injEq _ _).mp h)).symm
    · intro hv; rw [hv] at h
      exact JsValue.noConfusion (congrArg Prod.fst ((Option.some.injEq _ _).mp h)).symm
    · intro hv; rw [hv] at h
      exact JsValue.noConfusion (congrArg Prod.fst ((Option.some.injEq _ _).mp h)).symm
    · rw [Option.map_eq_some'] at h
      obtain ⟨p, _, hp⟩ := h
      intro hv; rw [hv] at hp
      exact JsValue.noConfusion (congrArg Prod.fst hp).symm
    · split at h
      · intro hv; rw [hv] at h
        exact JsValue.noConfusion (congrArg Prod.fst ((Option.some.injEq _ _).mp h)).symm
      · rw [Option.map_eq_some'] at h
        obtain ⟨p, _, hp⟩ := h
        intro hv; rw [hv] at hp
        exact JsValue.noConfusion (congrArg Prod.fst hp).symm
    · split at h
      · intro hv; rw [hv] at h
        exact JsValue.noConfusion (congrArg Prod.fst ((Option.some.injEq _ _).mp h)).symm
      · rw [Option.map_eq_some'] at h
        obtain ⟨p, _, hp⟩ := h
        intro hv; rw [hv] at hp
        exact JsValue.noConfusion (congrArg Prod.fst hp).symm
    · split at h
      · exact parseNumber_ne_undef _ v rest h
      · exact Option.noConfusion h
    · exact Option.noConfusion h

/-- parseJson never returns the undefined value. -/
theorem parseJson_ne_undef (s : String) (v : JsValue) (h : parseJson s = some v) :
    v ≠ .undef := by
  dsimp [parseJson] at h
  cases hh : parseValue (s.length + 1) s.data with
  | none => rw [hh] at h; exact Option.noConfusion h
  | some p =>
    obtain ⟨w, rest⟩ := p
    rw [hh] at h
    dsimp only at h
    split at h
    · have hv : w = v := (Option.some.injEq _ _).mp h
      rw [← hv]
      exact parseValue_ne_undef _ _ _ _ hh
    · exact Option.noConfusion h

/-- Claim C4: sanitizeBody truncates exactly when the serialized form exceeds
10,000 characters — returning the marker object with the truncated flag, the
exact serialized length as originalSize, and the first 500 characters plus an
ellipsis as preview, with no field-level redaction — and otherwise returns the
redaction of the body (through parsing in the string case) with no truncation
marker constructed. -/
theorem C4_truncation_threshold (body : JsValue) (hfalsy : isFalsy body = false) :
    ((jsonStringOf body).length > 10000 →
      sanitizeBody body
        = .obj [("_truncated", .bool true),
                ("_originalSize", .num (Int.ofNat (jsonStringOf body).length)),
                ("_preview", .str (jsSubstring (jsonStringOf body) 500 ++ "..."))]) ∧
    ((jsonStringOf body).length ≤ 10000 →
      (isObjLike body = true → sanitizeBody body = redactSensitiveFields body) ∧
      (∀ s, body = .str s →
        sanitizeBody body
          = (match parseJson s with
             | some parsed => if isObjLike parsed then redactSensitiveFields parsed else parsed
             | none => .str (fallbackString s))) ∧
      (isObjLike body = false → (∀ s, body ≠ .str s) → sanitizeBody body = body)) := by
  constructor
  · intro hgt
    show (if isFalsy body then JsValue.undef
          else if (jsonStringOf body).length > 10000 then truncMarker (jsonStringOf body)
          else _) = _
    rw [hfalsy]
    simp only [Bool.false_eq_true, if_false, if_pos hgt]
    rfl
  · intro hle
    have hgt : ¬ (jsonStringOf body).length > 10000 := by omega
    refine ⟨fun hobj => sanitizeBody_objLike body hobj hle, ?_, ?_⟩
    · rintro s rfl
      show (if isFalsy (JsValue.str s) then JsValue.undef
            else if (jsonStringOf (JsValue.str s)).length > 10000
              then truncMarker (jsonStringOf (JsValue.str s))
            else match parseJson s with
             | some parsed => if isObjLike parsed then redactSensitiveFields parsed else parsed
             | none => .str (fallbackString s)) = _
      rw [hfalsy]
      simp only [Bool.false_eq_true, if_false, if_neg hgt]
    · intro hobj hstr
      cases body with
      | str s => exact absurd rfl (hstr s)
      | undef => simp [isFalsy] at hfalsy
      | null => simp [isFalsy] at hfalsy
      | bool b =>
        show (if isFalsy (JsValue.bool b) then JsValue.undef
              else if (jsonStringOf (JsValue.bool b)).length > 10000
                then truncMarker (jsonStringOf (JsValue.bool b))
              else if isObjLike (JsValue.bool b) then redactSensitiveFields (JsValue.bool b)
              else JsValue.bool b) = JsValue.bool b
        rw [hfalsy]
        simp only [Bool.false_eq_true, if_false, if_neg hgt, hobj]
      | num n =>
        show (if isFalsy (JsValue.num n) then JsValue.undef
              else if (jsonStringOf (JsValue.num n)).length > 10000
                then truncMarker (jsonStringOf (JsValue.num n))
              else if isObjLike (JsValue.num n) then redactSensitiveFields (JsValue.num n)
              else JsValue.num n) = JsValue.num n
        rw [hfalsy]
        simp only [Bool.false_eq_true, if_false, if_neg hgt, hobj]
      | arr elems => simp [isObjLike] at hobj
      | obj fields => simp [isObjLike] at hobj

/-- The oversized string used by the C4 witness: 10,001 characters. -/
def c4BigString : String := String.mk (List.replicate 10001 'a')

/-- Witness for C4: a 10,001-character string body is truncated into the
marker object and a 2-character string body is processed without truncation. -/
theorem C4_truncation_threshold_witness :
    sanitizeBody (JsValue.str c4BigString)
      = .obj [("_truncated", .bool true),
              ("_originalSize", .num (Int.ofNat (jsonStringOf (JsValue.str c4BigString)).length)),
              ("_preview",
               .str (jsSubstring (jsonStringOf (JsValue.str c4BigString)) 500 ++ "..."))] ∧
    sanitizeBody (JsValue.str "hi") = JsValue.str (fallbackString "hi") :=
  ⟨(C4_truncation_threshold (JsValue.str c4BigString)
      (by
        show c4BigString.isEmpty = false
        rw [Bool.eq_false_iff]
        intro h
        have h2 := (String.isEmpty_iff c4BigString).mp h
        have h3 : c4BigString.length = 10001 := by
          show (List.replicate 10001 'a').length = 10001
          rw [List.length_replicate]
        rw [h2] at h3
        exact absurd h3 (by decide))).1
      (by
        show c4BigString.length > 10000
        show (List.replicate 10001 'a').length > 10000
        rw [List.length_replicate]
        omega),
   by
     have h := ((C4_truncation_threshold (JsValue.str "hi") rfl).2 (by decide)).2.1 "hi" rfl
     rw [h]
     rfl⟩

/-- Counterexample to claim C7 as stated: the scalar inputs false, 0 and the
empty string — none of which is undefined or null — also map to undefined,
because the source guards with JavaScript truthiness (`if (!body)`). -/
theorem C7_counterexample :
    sanitizeBody (.bool false) = .undef ∧
    sanitizeBody (.num 0) = .undef ∧
    sanitizeBody (.str "") = .undef ∧
    JsValue.bool false ≠ .undef ∧
    JsValue.bool false ≠ .null :=
  ⟨rfl, rfl, rfl, fun h => JsValue.noConfusion h, fun h => JsValue.noConfusion h⟩

/-- Claim C7 (amended): exactly the JavaScript-falsy inputs (undefined, null,
false, 0, the empty string) map to undefined; every truthy input is processed
and never yields undefined; truthy non-string scalars within the serialization
threshold (automatic for JavaScript numbers) pass through unchanged; and a
truthy string within the threshold that does not parse as JSON passes through
subject only to the 500-character fallback truncation. -/
theorem C7_boundary :
    (∀ body : JsValue, isFalsy body = true → sanitizeBody body = .undef) ∧
    (∀ body : JsValue, isFalsy body = false → sanitizeBody body ≠ .undef) ∧
    (∀ n : Int, ¬ n = 0 → (jsonStringOf (JsValue.num n)).length ≤ 10000 →
      sanitizeBody (.num n) = .num n) ∧
    sanitizeBody (.bool true) = .bool true ∧
    (∀ s : String, s.isEmpty = false → s.length ≤ 10000 → parseJson s = none →
      sanitizeBody (.str s) = .str (fallbackString s)) := by
  have htruthy : ∀ body : JsValue, isFalsy body = false → sanitizeBody body ≠ .undef := by
    intro body hfalsy
    by_cases hgt : (jsonStringOf body).length > 10000
    · have h := (C4_truncation_threshold body hfalsy).1 hgt
      rw [h]
      exact fun hcontra => JsValue.noConfusion hcontra
    · have hle : (jsonStringOf body).length ≤ 10000 := by omega
      have hparts := (C4_truncation_threshold body hfalsy).2 hle
      cases body with
      | undef => simp [isFalsy] at hfalsy
      | null => simp [isFalsy] at hfalsy
      | bool b =>
        rw [hparts.2.2 rfl (fun s h => JsValue.noConfusion h)]
        exact fun hcontra => JsValue.noConfusion hcontra
      | num n =>
        rw [hparts.2.2 rfl (fun s h => JsValue.noConfusion h)]
        exact fun hcontra => JsValue.noConfusion hcontra
      | str s =>
        rw [hparts.2.1 s rfl]
        cases hp : parseJson s with
        | none => exact fun hcontra => JsValue.noConfusion hcontra
        | some parsed =>
          cases hobj : isObjLike parsed with
          | true =>
            simp only [hobj, if_true]
            intro hcontra
            have hobj2 := redact_objLike parsed hobj
            rw [hcontra] at hobj2
            exact absurd hobj2 (by simp [isObjLike])
          | false =>
            simp only [hobj, Bool.false_eq_true, if_false]
            exact parseJson_ne_undef s parsed hp
      | arr elems =>
        rw [hparts.1 rfl]
        exact fun hcontra => JsValue.noConfusion hcontra
      | obj fields =>
        rw [hparts.1 rfl]
        exact fun hcontra => JsValue.noConfusion hcontra
  refine ⟨?_, htruthy, ?_, rfl, ?_⟩
  · intro body hfalsy
    show (if isFalsy body then JsValue.undef else _) = JsValue.undef
    rw [hfalsy]
    simp
  · intro n hn hle
    have hfalsy : isFalsy (JsValue.num n) = false := by
      simp [isFalsy, beq_eq_false_iff_ne, hn]
    exact ((C4_truncation_threshold (JsValue.num n) hfalsy).2 hle).2.2 rfl
      (fun s h => JsValue.noConfusion h)
  · intro s hempty hle hp
    have hfalsy : isFalsy (JsValue.str s) = false := hempty
    have h := ((C4_truncation_threshold (JsValue.str s) hfalsy).2 hle).2.1 s rfl
    rw [h, hp]

/-- Witness for the amended C7: concrete falsy, numeric, and non-JSON string
inputs. -/
theorem C7_boundary_witness :
    sanitizeBody .null = .undef ∧
    sanitizeBody (.num 7) ≠ .undef ∧
    sanitizeBody (.num 7) = .num 7 ∧
    sanitizeBody (.str "hello") = .str (fallbackString "hello") :=
  ⟨C7_boundary.1 .null rfl,
   C7_boundary.2.1 (.num 7) rfl,
   C7_boundary.2.2.1 7 (by decide) (by decide),
   C7_boundary.2.2.2.2 "hello" rfl (by decide) rfl⟩

/-- The C5 transport: rejects on attempts 1 and 2, then returns HTTP 200. -/
def failTwiceTransport : Nat → FetchOutcome :=
  fun n => if n ≤ 2 then .transportError else .response 200

/-- Evaluation of sendBatch on the C5 schedule: a transport failing twice and
then succeeding produces exactly 3 attempts and normal return (delivered), but
the backoff delays are 2000 ms then 4000 ms (Math.pow(2, attempt) * 1000 with
attempt starting at 1), not the 1 s and 2 s announced by the code's own
comments and docstring. -/
theorem C5_retry_backoff_eval :
    sendBatchFrom failTwiceTransport 1
      = { ok := true, attempts := 3, delays := [2000, 4000] } := by
  rw [sendBatchFrom]
  rw [sendBatchFrom]
  rw [sendBatchFrom]
  simp [failTwiceTransport, outcomeFails, maxAttempts]

/-- sendBatch depends on the transport only through whether each attempt lands
in the catch block: a non-2xx response is treated identically to a transport
error. -/
theorem sendBatchFrom_congr (t1 t2 : Nat → FetchOutcome)
    (h : ∀ n, outcomeFails (t1 n) = outcomeFails (t2 n)) :
    ∀ a, sendBatchFrom t1 a = sendBatchFrom t2 a := by
  have key : ∀ k a, 3 - a ≤ k → sendBatchFrom t1 a = sendBatchFrom t2 a := by
    intro k
    induction k with
    | zero =>
      intro a ha
      have ha3 : ¬ a < maxAttempts := by simp only [maxAttempts]; omega
      conv_lhs => rw [sendBatchFrom]
      conv_rhs => rw [sendBatchFrom]
      rw [h a]
      cases hfo : outcomeFails (t2 a) with
      | true => simp [ha3]
      | false => simp
    | succ k ih =>
      intro a ha
      conv_lhs => rw [sendBatchFrom]
      conv_rhs => rw [sendBatchFrom]
      rw [h a]
      by_cases ha3 : a < maxAttempts
      · cases hfo : outcomeFails (t2 a) with
        | true =>
          have hrec := ih (a + 1) (by simp only [maxAttempts] at ha3; omega)
          simp [ha3, hrec]
        | false => simp
      · cases hfo : outcomeFails (t2 a) with
        | true => simp [ha3]
        | false => simp
  intro a
  exact key 3 a (by omega)

/-- Claim C6: with a transport failing on every attempt (non-2xx responses
behaving identically to transport errors, by the last conjunct), flush makes
exactly 3 send attempts, the final failure is surfaced by sendBatch
(ok = false) and caught by flush, which warns, returns normally, and leaves
the queue equal to the original minus the dequeued batch — the dropped events
are not requeued. -/
theorem C6_exhausted_retries (transport : Nat → FetchOutcome)
    (hfail : ∀ n, outcomeFails (transport n) = true)
    (q : LogQueue) (bs : Nat) (hq : q.isEmpty = false) (hbs : 0 < bs) :
    flush bs transport q
      = .ok { newQueue := (q.dequeue bs).2, sentLogs := some (q.dequeue bs).1,
              sendTrace := some { ok := false, attempts := 3, delays := [2000, 4000] },
              warned := true } ∧
    (q.dequeue bs).2.queue = q.queue.drop bs ∧
    (∀ t2 : Nat → FetchOutcome, (∀ n, outcomeFails (transport n) = outcomeFails (t2 n)) →
      ∀ a, sendBatchFrom transport a = sendBatchFrom t2 a) := by
  have s3 : sendBatchFrom transport 3 = { ok := false, attempts := 1, delays := [] } := by
    rw [sendBatchFrom]
    simp [hfail 3, maxAttempts]
  have s2 : sendBatchFrom transport 2 = { ok := false, attempts := 2, delays := [4000] } := by
    rw [sendBatchFrom]
    simp [hfail 2, maxAttempts, s3]
  have s1 : sendBatchFrom transport 1
      = { ok := false, attempts := 3, delays := [2000, 4000] } := by
    rw [sendBatchFrom]
    simp [hfail 1, maxAttempts, s2]
  have hlen0 : q.queue.length ≠ 0 := by
    intro h0
    rw [LogQueue.isEmpty] at hq
    simp [h0] at hq
  have htake : ¬ ((q.dequeue bs).1.length == 0) = true := by
    show ¬ ((q.queue.take bs).length == 0) = true
    simp only [beq_iff_eq, List.length_take]
    omega
  refine ⟨?_, rfl, sendBatchFrom_congr transport⟩
  show (if q.isEmpty then _ else _) = _
  rw [Bool.eq_false_iff] at hq
  rw [if_neg hq]
  dsimp only
  rw [if_neg htake, s1]
  dsimp only
  rfl

/-- A transport whose every attempt yields a non-2xx response. -/
def badTransport : Nat → FetchOutcome := fun _ => .response 500

/-- Witness for C6: a concrete always-failing (non-2xx) transport with one
queued event. -/
theorem C6_exhausted_retries_witness :
    flush 10 badTransport (LogQueue.mk [samplePayload "f"] 5)
      = .ok { newQueue := ((LogQueue.mk [samplePayload "f"] 5).dequeue 10).2,
              sentLogs := some ((LogQueue.mk [samplePayload "f"] 5).dequeue 10).1,
              sendTrace := some { ok := false, attempts := 3, delays := [2000, 4000] },
              warned := true } :=
  (C6_exhausted_retries badTransport (fun _ => rfl) (LogQueue.mk [samplePayload "f"] 5) 10
    rfl (by decide)).1

/-- Claim C8: flush on an empty queue is a no-op — the queue is unchanged, no
batch is constructed and no network call is made — and every batch a flush
ever constructs and sends carries at least 1 and at most batchSize events. -/
theorem C8_flush_invariants :
    (∀ (bs : Nat) (t : Nat → FetchOutcome) (ms : Nat),
      flush bs t (LogQueue.mk [] ms) = .ok ⟨LogQueue.mk [] ms, none, none, false⟩) ∧
    (∀ (bs : Nat) (t : Nat → FetchOutcome) (q : LogQueue) (info : FlushInfo)
        (logs : List LogPayload),
      flush bs t q = .ok info → info.sentLogs = some logs →
      1 ≤ logs.length ∧ logs.length ≤ bs) := by
  constructor
  · intro bs t ms
    rfl
  · intro bs t q info logs hflush hsent
    dsimp only [flush] at hflush
    split at hflush
    · have hinfo : info = ⟨q, none, none, false⟩ :=
        ((Except.ok.injEq _ _).mp hflush).symm
      rw [hinfo] at hsent
      exact Option.noConfusion hsent
    · split at hflush
      · have hinfo : info = ⟨(q.dequeue bs).2, none, none, false⟩ :=
          ((Except.ok.injEq _ _).mp hflush).symm
        rw [hinfo] at hsent
        exact Option.noConfusion hsent
      · rename_i hne
        have hlogs : logs = (q.dequeue bs).1 := by
          split at hflush <;>
          · have hinfo := ((Except.ok.injEq _ _).mp hflush).symm
            rw [hinfo] at hsent
            exact ((Option.some.injEq _ _).mp hsent).symm
        have hlen : logs.length = (q.queue.take bs).length := by rw [hlogs]; rfl
        constructor
        · have : ¬ (q.queue.take bs).length = 0 := by
            intro h0
            exact hne (by show ((q.queue.take bs).length == 0) = true; simp [h0])
          omega
        · rw [hlen, List.length_take]
          omega

/-- Witness for C8: empty-queue flush is a no-op and a one-event batch is
within bounds. -/
theorem C8_flush_invariants_witness :
    flush 10 badTransport (LogQueue.mk [] 7) = .ok ⟨LogQueue.mk [] 7, none, none, false⟩ ∧
    (1 ≤ [samplePayload "w"].length ∧ [samplePayload "w"].length ≤ 10) :=
  ⟨C8_flush_invariants.1 10 badTransport 7,
   C8_flush_invariants.2 10 badTransport (LogQueue.mk [samplePayload "w"] 7)
     { newQueue := LogQueue.mk [] 7, sentLogs := some [samplePayload "w"],
       sendTrace := some { ok := false, attempts := 3, delays := [2000, 4000] },
       warned := true }
     [samplePayload "w"]
     ((C6_exhausted_retries badTransport (fun _ => rfl) (LogQueue.mk [samplePayload "w"] 7)
        10 rfl (by decide)).1)
     rfl⟩

/-- Claim C10: once getClient has constructed the process-wide instance under
config c1, any later getClient call with any config c2 returns that same
instance, still carrying c1, and leaves the singleton state unchanged — the
new config is ignored; after resetClient nulls the slot, a later getClient
constructs a client with the new config. -/
theorem C10_singleton_config (c1 c2 : LogSentinelConfig) :
    (getClient c1 none).1.config = c1 ∧
    getClient c2 (getClient c1 none).2 = ((getClient c1 none).1, (getClient c1 none).2) ∧
    (getClient c2 (resetClient (getClient c1 none).2)).1.config = c2 :=
  ⟨rfl, rfl, rfl⟩
